import Mathlib

/-!
Verification of the natural-language specification of
`src/learn/transform.cpp` (Stockfish learner data-transformation pipeline)
against a shallow embedding of its code.

Modelling conventions:
* C++ `int16_t` / `int` values are embedded as `ℤ`; saturation and clamping
  are explicit, following the source's `std::clamp` calls.
* C++ `float` computations (relative and interpolate nudge modes) are
  embedded over `ℚ` with exact arithmetic; the `(int)` cast truncates toward
  zero, as in C.
* I/O streams become explicit lists; an input source is `Option (List _)`
  (`none` = failed to open), a sink is a `Bool` flag plus the list of
  flushed batches recorded in the run result.
* External collaborator services (`Eval::evaluate`, `Search::search`,
  `Position::sfen_pack`) are oracles passed in as function parameters.
* The concurrent worker pool of `do_rescore_fen` is modelled by a
  deterministic loop: the shared cursor is mutex-guarded in the source, so
  every `next_fen` call consumes exactly one line (or end-of-file) in
  order, and each `nullopt` result permanently stops one worker; the
  counted quantities (search attempts, emitted records) are independent of
  the interleaving, so the model tracks only the number of alive workers.
-/

namespace Transform

/-- Embedding of `std::clamp(v, lo, hi)` on integers: `(v < lo) ? lo : (hi < v) ? hi : v`. -/
def clampI (v lo hi : ℤ) : ℤ :=
  if v < lo then lo else if hi < v then hi else v

/-- Embedding of `std::clamp(v, lo, hi)` on rationals (embedding the `float` overload). -/
def clampQ (v lo hi : ℚ) : ℚ :=
  if v < lo then lo else if hi < v then hi else v

/-- The `(int)` cast of a C `float`: truncation toward zero. -/
def truncQ (q : ℚ) : ℤ :=
  if 0 ≤ q then ⌊q⌋ else ⌈q⌉

/-- Lambda `saturate_i32_to_i16` from `nudge`: clamp into the signed-16-bit range. -/
def saturate_i32_to_i16 (v : ℤ) : ℤ :=
  clampI v (-32768) 32767

/-- Lambda `saturate_f32_to_i16` from `nudge`: truncate toward zero, then clamp. -/
def saturate_f32_to_i16 (v : ℚ) : ℤ :=
  saturate_i32_to_i16 (truncQ v)

/-- Embedding of `enum struct NudgedStaticMode`. -/
inductive NudgedStaticMode where
  | Absolute
  | Relative
  | Interpolate
deriving DecidableEq

/-- Embedding of `struct NudgedStaticParams` with its member initializers.
The `float` fields are embedded as `ℚ`, so the `0.1` defaults are `1/10`. -/
structure NudgedStaticParams where
  input_filename : String := "in.binpack"
  output_filename : String := "out.binpack"
  mode : NudgedStaticMode := NudgedStaticMode.Absolute
  absolute_nudge : ℤ := 5
  relative_nudge : ℚ := 1/10
  interpolate_nudge : ℚ := 1/10
deriving DecidableEq

/-- Embedding of `NudgedStaticParams::enforce_constraints`. -/
def NudgedStaticParams.enforce_constraints (p : NudgedStaticParams) :
    NudgedStaticParams :=
  { p with relative_nudge := max p.relative_nudge 0,
           absolute_nudge := max p.absolute_nudge 0 }

/-- Embedding of `struct RescoreFenParams` with its member initializers. -/
structure RescoreFenParams where
  input_filename : String := "in.epd"
  output_filename : String := "out.binpack"
  depth : ℤ := 3
deriving DecidableEq

/-- Embedding of `RescoreFenParams::enforce_constraints`. -/
def RescoreFenParams.enforce_constraints (p : RescoreFenParams) :
    RescoreFenParams :=
  { p with depth := max 1 p.depth }

/-- The `nudge` function of `transform.cpp` (lines 62-111).  `static_eval_i16`
and `deep_eval_i16` are the two `int16_t` arguments, widened to `int` by the
source before computing; float-mode arithmetic is embedded over `ℚ`. -/
def nudge (params : NudgedStaticParams)
    (static_eval_i16 deep_eval_i16 : ℤ) : ℤ :=
  let static_eval := static_eval_i16
  let deep_eval := deep_eval_i16
  match params.mode with
  | NudgedStaticMode.Absolute =>
      saturate_i32_to_i16
        (static_eval + clampI (deep_eval - static_eval)
          (-params.absolute_nudge) params.absolute_nudge)
  | NudgedStaticMode.Relative =>
      saturate_f32_to_i16
        ((static_eval : ℚ) * clampQ ((deep_eval : ℚ) / (static_eval : ℚ))
          (1 - params.relative_nudge) (1 + params.relative_nudge))
  | NudgedStaticMode.Interpolate =>
      saturate_f32_to_i16
        ((static_eval : ℚ) * (1 - params.interpolate_nudge)
          + (deep_eval : ℚ) * params.interpolate_nudge)

/-- Modelled from the spec: the opaque packed board encoding of
`packed_sfen.h` (not under `src/`); the pipeline never inspects it. -/
abbrev PackedSfen := List Nat

/-- Modelled from the spec: the opaque best-move encoding (not under
`src/`); the pipeline only copies it. -/
abbrev Move := Nat

/-- Modelled from the spec: `struct PackedSfenValue` of `packed_sfen.h`
(not under `src/`): packed board encoding, score, best move, ply count,
game-result code and padding. -/
structure PackedSfenValue where
  sfen : PackedSfen
  score : ℤ
  move : Move
  gamePly : ℤ
  game_result : ℤ
  padding : ℤ
deriving DecidableEq

/-- The batch-accumulation loop shared by both drivers (`buffer` /
`batch_size` / `num_processed` in the source): process the remaining
records with `f`, append each to the buffer, flush whenever the buffer
reaches `T` records, and flush the final partial batch. Returns the
flushed batches in order, the final `num_processed` counter, and the
"Processed N positions." progress lines in emission order. -/
def driverLoop (f : PackedSfenValue → PackedSfenValue) (T : ℕ) :
    List PackedSfenValue → List PackedSfenValue → ℕ →
    List (List PackedSfenValue) × ℕ × List String
  | [], buf, n =>
      if buf.isEmpty then ([], n, [])
      else ([buf], n + buf.length,
        ["Processed " ++ toString (n + buf.length) ++ " positions."])
  | r :: rest, buf, n =>
      let buf2 := buf ++ [f r]
      if T ≤ buf2.length then
        let res := driverLoop f T rest [] (n + buf2.length)
        (buf2 :: res.1, res.2.1,
          ("Processed " ++ toString (n + buf2.length) ++ " positions.")
            :: res.2.2)
      else
        driverLoop f T rest buf2 n

/-- The record transformation applied per record by `do_nudged_static`:
recompute a static evaluation (external `Eval::evaluate`, an oracle here),
treat the stored score as the deep reference, and overwrite the score with
the nudged value. -/
def nudged_static_update (params : NudgedStaticParams)
    (evaluate : PackedSfenValue → ℤ) (ps : PackedSfenValue) :
    PackedSfenValue :=
  { ps with score := nudge params (evaluate ps) ps.score }

/-- Observable outcome of one driver run: error-channel lines, standard
output lines, the batches written to the sink in order, and the final
`num_processed` counter. -/
structure DriverOutput where
  cerr : List String
  cout : List String
  written : List (List PackedSfenValue)
  num_processed : ℕ
deriving DecidableEq

/-- Embedding of `do_nudged_static` (lines 113-176): `input = none` models
`open_sfen_input_file` returning `nullptr`, `output_ok = false` models
`create_new_sfen_output` returning `nullptr`; otherwise the batch loop runs
with threshold 1,000,000 and a final "Finished." line is printed. -/
def do_nudged_static (params : NudgedStaticParams)
    (evaluate : PackedSfenValue → ℤ)
    (input : Option (List PackedSfenValue)) (output_ok : Bool) :
    DriverOutput :=
  match input with
  | none => ⟨["Invalid input file type."], [], [], 0⟩
  | some recs =>
      if output_ok then
        let res := driverLoop (nudged_static_update params evaluate)
          1000000 recs [] 0
        ⟨[], res.2.2 ++ ["Finished."], res.1, res.2.1⟩
      else ⟨["Invalid output file type."], [], [], 0⟩

/-- The shared cursor `next_fen` (lines 240-255): one `getline` per call,
under a mutex; the line is consumed even when it is rejected for being
shorter than 10 characters, and a rejected or missing line yields `none`.
Returns the cursor result and the remaining lines of the source. -/
def next_fen : List String → Option String × List String
  | [] => (none, [])
  | fen :: rest => if 10 ≤ fen.length then (some fen, rest) else (none, rest)

/-- Oracles for the external services used by the rescoring worker:
`Search::search(pos, depth, 1)` (evaluation and principal variation) and
`Position::sfen_pack`, both keyed by the FEN line the position was set
from. -/
structure RescoreOracle where
  search : String → ℤ × List Move
  pack : String → PackedSfen

/-- Record construction of the rescoring worker (lines 296-306): an empty
principal variation produces no record; otherwise the record carries the
packed position, the search value, the first move of the line, ply 1,
game-result 0 and padding 0. -/
def rescore_build (sfen : PackedSfen) (search_value : ℤ)
    (search_pv : List Move) : Option PackedSfenValue :=
  match search_pv with
  | [] => none
  | m :: _ => some ⟨sfen, search_value, m, 1, 0, 0⟩

/-- The fork-join worker pool of `do_rescore_fen` (lines 283-321), reduced
to its deterministic skeleton: `alive` workers repeatedly call the shared
cursor; a `none` cursor result permanently stops the calling worker, a
valid line triggers one search attempt and possibly one record. Counted
quantities are independent of the interleaving because the cursor is
mutex-guarded, so the model consumes lines in order. When the source is
exhausted every remaining worker's next cursor call returns `none` and
stops it without contributing, so that case collapses to `(0, [])`.
Returns the total number of search attempts and the emitted records. -/
def rescore_workers (o : RescoreOracle) :
    ℕ → List String → ℕ × List PackedSfenValue
  | _, [] => (0, [])
  | 0, _ :: _ => (0, [])
  | alive + 1, fen :: rest =>
      if 10 ≤ fen.length then
        let res := rescore_workers o (alive + 1) rest
        match rescore_build (o.pack fen) (o.search fen).1 (o.search fen).2 with
        | none => (res.1 + 1, res.2)
        | some ps => (res.1 + 1, ps :: res.2)
      else
        rescore_workers o alive rest

/-- Outcome of a `do_rescore_fen` run: the driver output plus the total
number of search attempts across all workers. -/
structure RescoreOutput where
  run : DriverOutput
  attempts : ℕ
deriving DecidableEq

/-- Embedding of `do_rescore_fen` (lines 236-334): `src_ok = false` models an input
`ifstream` that failed to open (every `getline` fails; the source performs
no open check), `K` is the worker count. The emitted records are batched
with threshold 10,000 and a final partial flush, mirroring the
mutex-guarded buffer; the driver never writes to the error channel and
always ends with "Finished.". The sink construction (line 262) is never
checked in the source, so no sink flag exists here. -/
def do_rescore_fen (o : RescoreOracle) (src_ok : Bool)
    (lines : List String) (K : ℕ) : RescoreOutput :=
  let effective := if src_ok then lines else []
  let work := rescore_workers o K effective
  let res := driverLoop id 10000 work.2 [] 0
  ⟨⟨[], res.2.2 ++ ["Finished."], res.1, res.2.1⟩, work.1⟩

/-- The number of valid lines of a source: those of length at least 10. -/
def countValidLines (lines : List String) : ℕ :=
  (lines.filter (fun l => 10 ≤ l.length)).length

/-- A concrete oracle used to evaluate the model on closed inputs: every
search returns value 0 with a one-move principal variation. -/
def trivialOracle : RescoreOracle :=
  ⟨fun _ => (0, [0]), fun _ => []⟩

/-- Observable events of the `transform` dispatcher (lines 366-386):
one-time evaluator initialization, entry into one of the two drivers with
the remaining tokens, or the invalid-subcommand report. -/
inductive TransformEvent where
  | nnue_init
  | run_nudged_static (rest : List String)
  | run_rescore_fen (rest : List String)
  | invalid_message (msg : String)
deriving DecidableEq

/-- The static lookup table `subcommands` of `transform`. -/
def transform_subcommands : List (String × (List String → TransformEvent)) :=
  [("nudged_static", TransformEvent.run_nudged_static),
   ("rescore_fen", TransformEvent.run_rescore_fen)]

/-- The `transform` dispatcher (lines 366-386): initialize the evaluator,
read the subcommand token (`""` on an empty stream), look it up in the
static table, and either enter the driver with the remaining tokens or
report the invalid name and return. -/
def transform (tokens : List String) : List TransformEvent :=
  let subcommand := tokens.headD ""
  let rest := tokens.tail
  TransformEvent.nnue_init ::
    match transform_subcommands.lookup subcommand with
    | some func => [func rest]
    | none => [TransformEvent.invalid_message
        ("Invalid subcommand " ++ subcommand ++ ". Exiting...")]

/-- The token loop of `nudged_static` (lines 182-209) over an already
whitespace-tokenized argument stream. `readI` / `readF` model the numeric
extraction `is >> <int-field>` / `is >> <float-field>` at token
granularity: `none` models extraction failure, which in C++11 stores `0`
in the target and sets the fail bit, ending the loop at the next token
read; a key with no following token models extraction at end-of-stream,
where the stream sentry fails and the target keeps its value. Mode
assignments happen before the value is read, as in the source. -/
def nudged_static_parse (readI : String → Option ℤ)
    (readF : String → Option ℚ) :
    List String → NudgedStaticParams → NudgedStaticParams
  | [], p => p
  | tok :: rest, p =>
      if tok = "absolute" then
        match rest with
        | [] => { p with mode := NudgedStaticMode.Absolute }
        | v :: rest' =>
            match readI v with
            | some n => nudged_static_parse readI readF rest'
                { p with mode := NudgedStaticMode.Absolute,
                         absolute_nudge := n }
            | none => { p with mode := NudgedStaticMode.Absolute,
                               absolute_nudge := 0 }
      else if tok = "relative" then
        match rest with
        | [] => { p with mode := NudgedStaticMode.Relative }
        | v :: rest' =>
            match readF v with
            | some x => nudged_static_parse readI readF rest'
                { p with mode := NudgedStaticMode.Relative,
                         relative_nudge := x }
            | none => { p with mode := NudgedStaticMode.Relative,
                               relative_nudge := 0 }
      else if tok = "interpolate" then
        match rest with
        | [] => { p with mode := NudgedStaticMode.Interpolate }
        | v :: rest' =>
            match readF v with
            | some x => nudged_static_parse readI readF rest'
                { p with mode := NudgedStaticMode.Interpolate,
                         interpolate_nudge := x }
            | none => { p with mode := NudgedStaticMode.Interpolate,
                               interpolate_nudge := 0 }
      else if tok = "input_file" then
        match rest with
        | [] => p
        | v :: rest' => nudged_static_parse readI readF rest'
            { p with input_filename := v }
      else if tok = "output_file" then
        match rest with
        | [] => p
        | v :: rest' => nudged_static_parse readI readF rest'
            { p with output_filename := v }
      else
        nudged_static_parse readI readF rest p

/-- The token loop of `rescore_fen` (lines 340-354), with the same stream
conventions as `nudged_static_parse`. -/
def rescore_fen_parse (readI : String → Option ℤ) :
    List String → RescoreFenParams → RescoreFenParams
  | [], p => p
  | tok :: rest, p =>
      if tok = "depth" then
        match rest with
        | [] => p
        | v :: rest' =>
            match readI v with
            | some n => rescore_fen_parse readI rest' { p with depth := n }
            | none => { p with depth := 0 }
      else if tok = "input_file" then
        match rest with
        | [] => p
        | v :: rest' => rescore_fen_parse readI rest'
            { p with input_filename := v }
      else if tok = "output_file" then
        match rest with
        | [] => p
        | v :: rest' => rescore_fen_parse readI rest'
            { p with output_filename := v }
      else
        rescore_fen_parse readI rest p

end Transform

namespace Transform

/-- Function `clampQ` stays below its upper bound when the bounds are ordered. -/
theorem clampQ_le_hi (v lo hi : ℚ) (h : lo ≤ hi) : clampQ v lo hi ≤ hi := by
  unfold clampQ
  split_ifs <;> linarith

/-- Function `clampQ` stays above its lower bound when the bounds are ordered. -/
theorem lo_le_clampQ (v lo hi : ℚ) (h : lo ≤ hi) : lo ≤ clampQ v lo hi := by
  unfold clampQ
  split_ifs <;> linarith

/-- Truncation toward zero is the identity on integers. -/
theorem truncQ_intCast (n : ℤ) : truncQ (n : ℚ) = n := by
  unfold truncQ
  split_ifs <;> simp

/-- Saturation is the identity on the signed-16-bit range. -/
theorem saturate_i32_to_i16_of_mem (v : ℤ) (h₁ : -32768 ≤ v) (h₂ : v ≤ 32767) :
    saturate_i32_to_i16 v = v := by
  unfold saturate_i32_to_i16 clampI
  split_ifs <;> omega

/-- C1: in absolute mode with cap `C ≥ 0` and 16-bit scores, `nudge` returns
the 16-bit saturation of `static + clamp(deep - static, -C, +C)`; the result
lies in `[static - C, static + C]` and in the 16-bit range, and equals
`static` when `deep = static`. -/
theorem C1_absolute_nudge (p : NudgedStaticParams) (s d : ℤ)
    (hm : p.mode = NudgedStaticMode.Absolute)
    (hC : 0 ≤ p.absolute_nudge)
    (hs₁ : -32768 ≤ s) (hs₂ : s ≤ 32767)
    (hd₁ : -32768 ≤ d) (hd₂ : d ≤ 32767) :
    nudge p s d
      = saturate_i32_to_i16
          (s + clampI (d - s) (-p.absolute_nudge) p.absolute_nudge)
    ∧ s - p.absolute_nudge ≤ nudge p s d
    ∧ nudge p s d ≤ s + p.absolute_nudge
    ∧ -32768 ≤ nudge p s d
    ∧ nudge p s d ≤ 32767
    ∧ (d = s → nudge p s d = s) := by
  have hdef : nudge p s d
      = saturate_i32_to_i16
          (s + clampI (d - s) (-p.absolute_nudge) p.absolute_nudge) := by
    simp [nudge, hm]
  refine ⟨hdef, ?_, ?_, ?_, ?_, ?_⟩ <;>
    [skip; skip; skip; skip;
     (intro hds; subst hds)] <;>
    simp only [hdef, saturate_i32_to_i16, clampI] <;>
    split_ifs <;> omega

end Transform

namespace Transform

/-- Witness for C1 at the spec's worked example: cap 10, static 100,
deep 200 (the adjusted score is 110). -/
theorem C1_absolute_nudge_witness :
    nudge { absolute_nudge := 10 } 100 200
      = saturate_i32_to_i16 (100 + clampI (200 - 100) (-10) 10)
    ∧ (100 : ℤ) - 10 ≤ nudge { absolute_nudge := 10 } 100 200
    ∧ nudge { absolute_nudge := 10 } 100 200 ≤ 100 + 10
    ∧ -32768 ≤ nudge { absolute_nudge := 10 } 100 200
    ∧ nudge { absolute_nudge := 10 } 100 200 ≤ 32767
    ∧ ((200 : ℤ) = 100 → nudge { absolute_nudge := 10 } 100 200 = 100) :=
  C1_absolute_nudge { absolute_nudge := 10 } 100 200 rfl (by decide)
    (by decide) (by decide) (by decide) (by decide)

/-- C4: in relative mode with `static ≠ 0` and fraction `F ≥ 0`, `nudge`
returns the truncation-then-saturation of
`static * clamp(deep / static, 1 - F, 1 + F)` (arithmetic embedded over ℚ),
and the pre-saturation value's ratio to `static` lies within `[1 - F, 1 + F]`. -/
theorem C4_relative_nudge (p : NudgedStaticParams) (s d : ℤ)
    (hm : p.mode = NudgedStaticMode.Relative)
    (hs : s ≠ 0) (hF : 0 ≤ p.relative_nudge) :
    nudge p s d
      = saturate_f32_to_i16
          ((s : ℚ) * clampQ ((d : ℚ) / (s : ℚ))
            (1 - p.relative_nudge) (1 + p.relative_nudge))
    ∧ 1 - p.relative_nudge
        ≤ ((s : ℚ) * clampQ ((d : ℚ) / (s : ℚ))
            (1 - p.relative_nudge) (1 + p.relative_nudge)) / (s : ℚ)
    ∧ ((s : ℚ) * clampQ ((d : ℚ) / (s : ℚ))
          (1 - p.relative_nudge) (1 + p.relative_nudge)) / (s : ℚ)
        ≤ 1 + p.relative_nudge := by
  have hsQ : (s : ℚ) ≠ 0 := Int.cast_ne_zero.mpr hs
  have hlohi : 1 - p.relative_nudge ≤ 1 + p.relative_nudge := by linarith
  have hratio : ((s : ℚ) * clampQ ((d : ℚ) / (s : ℚ))
      (1 - p.relative_nudge) (1 + p.relative_nudge)) / (s : ℚ)
      = clampQ ((d : ℚ) / (s : ℚ))
          (1 - p.relative_nudge) (1 + p.relative_nudge) := by
    rw [mul_comm, mul_div_assoc, div_self hsQ, mul_one]
  refine ⟨by simp [nudge, hm], ?_, ?_⟩
  · rw [hratio]
    exact lo_le_clampQ _ _ _ hlohi
  · rw [hratio]
    exact clampQ_le_hi _ _ _ hlohi

/-- Witness for C4: relative fraction 1/10, static 100, deep 200. -/
theorem C4_relative_nudge_witness :
    nudge { mode := NudgedStaticMode.Relative } 100 200
      = saturate_f32_to_i16
          ((100 : ℚ) * clampQ ((200 : ℚ) / (100 : ℚ)) (1 - 1/10) (1 + 1/10))
    ∧ 1 - (1/10 : ℚ)
        ≤ ((100 : ℚ) * clampQ ((200 : ℚ) / (100 : ℚ))
            (1 - 1/10) (1 + 1/10)) / (100 : ℚ)
    ∧ ((100 : ℚ) * clampQ ((200 : ℚ) / (100 : ℚ))
          (1 - 1/10) (1 + 1/10)) / (100 : ℚ)
        ≤ 1 + (1/10 : ℚ) :=
  C4_relative_nudge { mode := NudgedStaticMode.Relative } 100 200 rfl
    (by decide) (by norm_num)

/-- C5: in interpolate mode, `nudge` returns the truncation-then-saturation
of `static * (1 - W) + deep * W` (arithmetic embedded over ℚ); for 16-bit
scores, `W = 0` reproduces `static` exactly and `W = 1` reproduces `deep`
exactly, post-saturation. -/
theorem C5_interpolate_nudge (p : NudgedStaticParams) (s d : ℤ)
    (hm : p.mode = NudgedStaticMode.Interpolate)
    (h0 : 0 ≤ p.interpolate_nudge) (h1 : p.interpolate_nudge ≤ 1)
    (hs₁ : -32768 ≤ s) (hs₂ : s ≤ 32767)
    (hd₁ : -32768 ≤ d) (hd₂ : d ≤ 32767) :
    nudge p s d
      = saturate_f32_to_i16
          ((s : ℚ) * (1 - p.interpolate_nudge)
            + (d : ℚ) * p.interpolate_nudge)
    ∧ (p.interpolate_nudge = 0 → nudge p s d = s)
    ∧ (p.interpolate_nudge = 1 → nudge p s d = d) := by
  have hdef : nudge p s d
      = saturate_f32_to_i16
          ((s : ℚ) * (1 - p.interpolate_nudge)
            + (d : ℚ) * p.interpolate_nudge) := by
    simp [nudge, hm]
  refine ⟨hdef, ?_, ?_⟩
  · intro hW
    have : ((s : ℚ) * (1 - p.interpolate_nudge)
        + (d : ℚ) * p.interpolate_nudge) = (s : ℚ) := by
      rw [hW]; ring
    rw [hdef, this, saturate_f32_to_i16, truncQ_intCast,
      saturate_i32_to_i16_of_mem s hs₁ hs₂]
  · intro hW
    have : ((s : ℚ) * (1 - p.interpolate_nudge)
        + (d : ℚ) * p.interpolate_nudge) = (d : ℚ) := by
      rw [hW]; ring
    rw [hdef, this, saturate_f32_to_i16, truncQ_intCast,
      saturate_i32_to_i16_of_mem d hd₁ hd₂]

/-- Witness for C5: weight 1 (the deep score is reproduced exactly),
static 100, deep 200. -/
theorem C5_interpolate_nudge_witness :
    nudge { mode := NudgedStaticMode.Interpolate, interpolate_nudge := 1 }
        100 200
      = saturate_f32_to_i16 ((100 : ℚ) * (1 - 1) + (200 : ℚ) * 1)
    ∧ ((1 : ℚ) = 0 →
        nudge { mode := NudgedStaticMode.Interpolate, interpolate_nudge := 1 }
          100 200 = 100)
    ∧ ((1 : ℚ) = 1 →
        nudge { mode := NudgedStaticMode.Interpolate, interpolate_nudge := 1 }
          100 200 = 200) :=
  C5_interpolate_nudge
    { mode := NudgedStaticMode.Interpolate, interpolate_nudge := 1 }
    100 200 rfl (by norm_num) (by norm_num) (by decide) (by decide)
    (by decide) (by decide)

end Transform

namespace Transform

/-- The flushed batches of the batch loop concatenate, in order, to the
initial buffer followed by the transformed records. -/
theorem driverLoop_flatten (f : PackedSfenValue → PackedSfenValue) (T : ℕ) :
    ∀ (recs buf : List PackedSfenValue) (n : ℕ),
      (driverLoop f T recs buf n).1.flatten = buf ++ recs.map f := by
  intro recs
  induction recs with
  | nil =>
    intro buf n
    cases buf <;> simp [driverLoop]
  | cons r rest ih =>
    intro buf n
    by_cases hle : T ≤ (buf ++ [f r]).length
    · simp only [driverLoop, if_pos hle, List.flatten_cons, ih]
      simp
    · simp only [driverLoop, if_neg hle, ih]
      simp

/-- The final counter of the batch loop is the initial counter plus
everything processed. -/
theorem driverLoop_counter (f : PackedSfenValue → PackedSfenValue) (T : ℕ) :
    ∀ (recs buf : List PackedSfenValue) (n : ℕ),
      (driverLoop f T recs buf n).2.1 = n + buf.length + recs.length := by
  intro recs
  induction recs with
  | nil =>
    intro buf n
    cases buf <;> simp [driverLoop]
  | cons r rest ih =>
    intro buf n
    by_cases hle : T ≤ (buf ++ [f r]).length
    · simp only [driverLoop, if_pos hle, ih]
      simp only [List.length_append, List.length_cons, List.length_nil]
      omega
    · simp only [driverLoop, if_neg hle, ih]
      simp only [List.length_append, List.length_cons, List.length_nil]
      omega

/-- The number of flushes of the batch loop is the ceiling of the number of
pending records over the threshold. -/
theorem driverLoop_count (f : PackedSfenValue → PackedSfenValue) (T : ℕ)
    (hT : 0 < T) :
    ∀ (recs buf : List PackedSfenValue) (n : ℕ), buf.length < T →
      (driverLoop f T recs buf n).1.length
        = (buf.length + recs.length + T - 1) / T := by
  intro recs
  induction recs with
  | nil =>
    intro buf n hbuf
    cases buf with
    | nil =>
      simp only [driverLoop, List.isEmpty_nil, if_true, List.length_nil,
        Nat.add_zero, Nat.zero_add]
      exact (Nat.div_eq_of_lt (by omega)).symm
    | cons b bs =>
      have hb : bs.length + 1 < T := by simpa using hbuf
      simp only [driverLoop, List.isEmpty_cons, Bool.false_eq_true, if_false,
        List.length_cons, List.length_nil]
      rw [show bs.length + 1 + 0 + T - 1 = bs.length + T by omega,
        Nat.add_div_right _ hT, Nat.div_eq_of_lt (by omega)]
  | cons r rest ih =>
    intro buf n hbuf
    by_cases hle : T ≤ (buf ++ [f r]).length
    · have hT2 : buf.length + 1 = T := by
        simp only [List.length_append, List.length_cons, List.length_nil]
          at hle
        omega
      have hIH := ih [] (n + (buf ++ [f r]).length) (by simpa using hT)
      simp only [driverLoop, if_pos hle, List.length_cons, hIH,
        List.length_nil]
      rw [show buf.length + (rest.length + 1) + T - 1
          = (0 + rest.length + T - 1) + T by omega,
        Nat.add_div_right _ hT]
    · have hlt : (buf ++ [f r]).length < T := by omega
      have hIH := ih (buf ++ [f r]) n hlt
      simp only [driverLoop, if_neg hle, hIH]
      congr 1
      simp only [List.length_append, List.length_cons, List.length_nil]
      omega

/-- C6: the static driver flushes every input record exactly once: the
flushed batch sizes sum to the input count `R`, the number of flush events
is `⌈R / 1000000⌉`, the final progress counter is `R`, and the sink
receives the transformed records in input order. -/
theorem C6_static_driver_batching (params : NudgedStaticParams)
    (evaluate : PackedSfenValue → ℤ) (recs : List PackedSfenValue) :
    ((do_nudged_static params evaluate (some recs) true).written.map
        List.length).sum = recs.length
    ∧ (do_nudged_static params evaluate (some recs) true).written.length
        = (recs.length + 1000000 - 1) / 1000000
    ∧ (do_nudged_static params evaluate (some recs) true).num_processed
        = recs.length
    ∧ (do_nudged_static params evaluate (some recs) true).written.flatten
        = recs.map (nudged_static_update params evaluate) := by
  have h1 := driverLoop_flatten (nudged_static_update params evaluate)
    1000000 recs [] 0
  have h2 := driverLoop_counter (nudged_static_update params evaluate)
    1000000 recs [] 0
  have h3 := driverLoop_count (nudged_static_update params evaluate)
    1000000 (by norm_num) recs [] 0 (by simp)
  simp only [do_nudged_static, if_pos]
  refine ⟨?_, ?_, ?_, ?_⟩
  · rw [← List.length_flatten, h1]
    simp
  · rw [h3]
    simp only [List.length_nil]
    congr 1
    omega
  · rw [h2]
    simp
  · rw [h1]
    simp

end Transform

namespace Transform

/-- C2 (amended): the static driver aborts with one error line, no records
processed and no output when its source or sink fails; the search-rescoring
driver performs no such check — with a source that failed to open it
processes nothing and writes nothing, but prints no diagnostic and
completes normally. -/
theorem C2_fatal_at_start (params : NudgedStaticParams)
    (evaluate : PackedSfenValue → ℤ) (input : Option (List PackedSfenValue))
    (output_ok : Bool) (o : RescoreOracle) (lines : List String) (K : ℕ)
    (h : input = none ∨ output_ok = false) :
    ((do_nudged_static params evaluate input output_ok).written = []
      ∧ (do_nudged_static params evaluate input output_ok).num_processed = 0
      ∧ (do_nudged_static params evaluate input output_ok).cerr.length = 1
      ∧ (do_nudged_static params evaluate input output_ok).cout = [])
    ∧ ((do_rescore_fen o false lines K).run.written = []
      ∧ (do_rescore_fen o false lines K).run.cerr = []
      ∧ (do_rescore_fen o false lines K).run.cout = ["Finished."]
      ∧ (do_rescore_fen o false lines K).attempts = 0) := by
  constructor
  · rcases h with h | h
    · subst h
      simp [do_nudged_static]
    · subst h
      cases input with
      | none => simp [do_nudged_static]
      | some recs => simp [do_nudged_static]
  · have hw : rescore_workers o K [] = (0, []) := by
      cases K <;> simp [rescore_workers]
    simp [do_rescore_fen, hw, driverLoop]

/-- Witness for C2 at a failed input source, trivial oracle, one worker. -/
theorem C2_fatal_at_start_witness :
    ((do_nudged_static {} (fun _ => 0) none true).written = []
      ∧ (do_nudged_static {} (fun _ => 0) none true).num_processed = 0
      ∧ (do_nudged_static {} (fun _ => 0) none true).cerr.length = 1
      ∧ (do_nudged_static {} (fun _ => 0) none true).cout = [])
    ∧ ((do_rescore_fen trivialOracle false [] 1).run.written = []
      ∧ (do_rescore_fen trivialOracle false [] 1).run.cerr = []
      ∧ (do_rescore_fen trivialOracle false [] 1).run.cout = ["Finished."]
      ∧ (do_rescore_fen trivialOracle false [] 1).attempts = 0) :=
  C2_fatal_at_start {} (fun _ => 0) none true trivialOracle [] 1 (Or.inl rfl)

/-- Counterexample to C2 as stated: with a record source that fails to
open, the search-rescoring driver prints nothing on the error channel and
completes normally instead of aborting with a diagnostic. -/
theorem C2_rescore_no_diagnostic :
    (do_rescore_fen trivialOracle false ["some pending line"] 1).run.cerr = []
    ∧ (do_rescore_fen trivialOracle false ["some pending line"] 1).run.cout
        = ["Finished."] :=
  ⟨rfl, rfl⟩

/-- With every line valid and at least one worker, the worker pool performs
one search attempt per line and emits at most one record per line. -/
theorem rescore_workers_all_valid (o : RescoreOracle) :
    ∀ (lines : List String), (∀ l ∈ lines, 10 ≤ l.length) →
      ∀ a : ℕ, 1 ≤ a →
        (rescore_workers o a lines).1 = lines.length
        ∧ (rescore_workers o a lines).2.length ≤ lines.length := by
  intro lines
  induction lines with
  | nil =>
    intro _ a _
    cases a <;> simp [rescore_workers]
  | cons fen rest ih =>
    intro hv a ha
    obtain ⟨a', rfl⟩ : ∃ a', a = a' + 1 := ⟨a - 1, by omega⟩
    have hfen : 10 ≤ fen.length := hv fen (by simp)
    have hrest := ih (fun l hl => hv l (by simp [hl])) (a' + 1) (by omega)
    cases hb : rescore_build (o.pack fen) (o.search fen).1 (o.search fen).2
      with
    | none =>
      simp only [rescore_workers, if_pos hfen, hb, List.length_cons]
      exact ⟨by rw [hrest.1], by omega⟩
    | some ps =>
      simp only [rescore_workers, if_pos hfen, hb, List.length_cons]
      exact ⟨by rw [hrest.1], by simpa using hrest.2⟩

/-- C3 (amended): a cursor read returns exhaustion to its worker exactly
when the next line read is absent or shorter than 10 characters — the
short line is still consumed — and each such result permanently stops that
worker; consequently, when every line of the source is valid and `K ≥ 1`,
the total number of search attempts equals the line count `L` and the
number of output records is at most `L`. -/
theorem C3_cursor_and_attempts (o : RescoreOracle) (lines : List String)
    (K : ℕ) (hK : 1 ≤ K) (hv : ∀ l ∈ lines, 10 ≤ l.length) :
    (∀ fen rest, next_fen (fen :: rest)
      = if 10 ≤ fen.length then (some fen, rest) else (none, rest))
    ∧ next_fen [] = (none, [])
    ∧ (do_rescore_fen o true lines K).attempts = lines.length
    ∧ ((do_rescore_fen o true lines K).run.written.map List.length).sum
        ≤ lines.length := by
  have hw := rescore_workers_all_valid o lines hv K hK
  refine ⟨fun fen rest => rfl, rfl, ?_, ?_⟩
  · simpa [do_rescore_fen] using hw.1
  · have hflat := driverLoop_flatten id 10000 (rescore_workers o K lines).2
      [] 0
    have hsum : ((driverLoop id 10000 (rescore_workers o K lines).2 [] 0).1.map
        List.length).sum = (rescore_workers o K lines).2.length := by
      rw [← List.length_flatten, hflat]
      simp
    simpa [do_rescore_fen, hsum] using hw.2

/-- Witness for C3 on a two-line all-valid source with one worker. -/
theorem C3_cursor_and_attempts_witness :
    (∀ fen rest, next_fen (fen :: rest)
      = if 10 ≤ fen.length then (some fen, rest) else (none, rest))
    ∧ next_fen [] = (none, [])
    ∧ (do_rescore_fen trivialOracle true
        ["0123456789", "rnbqkbnr/pppppppp line"] 1).attempts
        = (["0123456789", "rnbqkbnr/pppppppp line"] : List String).length
    ∧ ((do_rescore_fen trivialOracle true
        ["0123456789", "rnbqkbnr/pppppppp line"] 1).run.written.map
          List.length).sum
        ≤ (["0123456789", "rnbqkbnr/pppppppp line"] : List String).length :=
  C3_cursor_and_attempts trivialOracle ["0123456789", "rnbqkbnr/pppppppp line"]
    1 (by decide) (by decide)

/-- Counterexample to C3 as stated: a source whose first line is shorter
than 10 characters but whose second line is valid yields zero search
attempts with one worker — the short line does not merely end the cursor
"when the source yields no further valid line", it kills the only worker —
so the attempt count differs from the number of valid lines, which is 1. -/
theorem C3_short_line_kills_worker :
    (do_rescore_fen trivialOracle true ["short", "0123456789"] 1).attempts = 0
    ∧ countValidLines ["short", "0123456789"] = 1 :=
  ⟨rfl, rfl⟩

end Transform

namespace Transform

/-- C7: in the rescoring worker loop, a valid line whose search returns a
non-empty principal variation contributes exactly one record whose score is
the search value, whose move is the first move of the line, with ply 1,
game-result 0 and padding 0, prepended to the rest of the run; an empty
principal variation contributes no record while the attempt is still
counted and the loop continues. -/
theorem C7_worker_emission (o : RescoreOracle) (a : ℕ) (fen : String)
    (rest : List String) (hfen : 10 ≤ fen.length) :
    (∀ v pv m, o.search fen = (v, m :: pv) →
      rescore_workers o (a + 1) (fen :: rest)
        = ((rescore_workers o (a + 1) rest).1 + 1,
           ⟨o.pack fen, v, m, 1, 0, 0⟩ :: (rescore_workers o (a + 1) rest).2))
    ∧ (∀ v, o.search fen = (v, []) →
      rescore_workers o (a + 1) (fen :: rest)
        = ((rescore_workers o (a + 1) rest).1 + 1,
           (rescore_workers o (a + 1) rest).2)) := by
  constructor
  · intro v pv m hsearch
    simp only [rescore_workers, if_pos hfen, hsearch, rescore_build]
  · intro v hsearch
    simp only [rescore_workers, if_pos hfen, hsearch, rescore_build]

/-- Witness for C7 with the trivial oracle (search value 0, one-move line)
on a 10-character line. -/
theorem C7_worker_emission_witness :
    rescore_workers trivialOracle 1 ["0123456789"]
      = ((rescore_workers trivialOracle 1 []).1 + 1,
         ⟨trivialOracle.pack "0123456789", 0, 0, 1, 0, 0⟩
           :: (rescore_workers trivialOracle 1 []).2) :=
  (C7_worker_emission trivialOracle 0 "0123456789" [] (by decide)).1 0 [] 0 rfl

/-- C8: constraint enforcement never fails and clamps only the constrained
fields to their nearest valid boundary: afterwards the relative fraction
and absolute cap are non-negative and the depth is at least 1; in-range
values and all other fields are unchanged. -/
theorem C8_enforce_constraints (p : NudgedStaticParams)
    (q : RescoreFenParams) :
    (0 ≤ p.enforce_constraints.relative_nudge
      ∧ 0 ≤ p.enforce_constraints.absolute_nudge
      ∧ p.enforce_constraints.input_filename = p.input_filename
      ∧ p.enforce_constraints.output_filename = p.output_filename
      ∧ p.enforce_constraints.mode = p.mode
      ∧ p.enforce_constraints.interpolate_nudge = p.interpolate_nudge
      ∧ (0 ≤ p.relative_nudge →
          p.enforce_constraints.relative_nudge = p.relative_nudge)
      ∧ (p.relative_nudge < 0 → p.enforce_constraints.relative_nudge = 0)
      ∧ (0 ≤ p.absolute_nudge →
          p.enforce_constraints.absolute_nudge = p.absolute_nudge)
      ∧ (p.absolute_nudge < 0 → p.enforce_constraints.absolute_nudge = 0))
    ∧ (1 ≤ q.enforce_constraints.depth
      ∧ q.enforce_constraints.input_filename = q.input_filename
      ∧ q.enforce_constraints.output_filename = q.output_filename
      ∧ (1 ≤ q.depth → q.enforce_constraints.depth = q.depth)
      ∧ (q.depth < 1 → q.enforce_constraints.depth = 1)) := by
  refine ⟨⟨le_max_right _ _, le_max_right _ _, rfl, rfl, rfl, rfl,
      fun h => max_eq_left h, fun h => max_eq_right (le_of_lt h),
      fun h => max_eq_left h, fun h => max_eq_right (le_of_lt h)⟩,
    le_max_left _ _, rfl, rfl,
      fun h => max_eq_right h, fun h => max_eq_left (le_of_lt h)⟩

/-- C9: the dispatcher initializes the evaluator first, then any token that
is not exactly "nudged_static" or "rescore_fen" is reported as invalid and
no driver is entered. -/
theorem C9_unknown_subcommand (cmd : String) (rest : List String)
    (h1 : cmd ≠ "nudged_static") (h2 : cmd ≠ "rescore_fen") :
    transform (cmd :: rest)
      = [TransformEvent.nnue_init,
         TransformEvent.invalid_message
           ("Invalid subcommand " ++ cmd ++ ". Exiting...")]
    ∧ (∀ args, TransformEvent.run_nudged_static args ∉ transform (cmd :: rest))
    ∧ (∀ args, TransformEvent.run_rescore_fen args ∉ transform (cmd :: rest))
    ∧ (transform (cmd :: rest)).head? = some TransformEvent.nnue_init := by
  have hb1 : (cmd == "nudged_static") = false := by
    simpa using h1
  have hb2 : (cmd == "rescore_fen") = false := by
    simpa using h2
  have ht : transform (cmd :: rest)
      = [TransformEvent.nnue_init,
         TransformEvent.invalid_message
           ("Invalid subcommand " ++ cmd ++ ". Exiting...")] := by
    simp [transform, transform_subcommands, List.lookup, hb1, hb2]
  refine ⟨ht, ?_, ?_, by rw [ht]; rfl⟩
  · intro args hmem
    rw [ht] at hmem
    simp at hmem
  · intro args hmem
    rw [ht] at hmem
    simp at hmem

/-- Witness for C9 at the spec's example token "bogus". -/
theorem C9_unknown_subcommand_witness :
    transform ["bogus"]
      = [TransformEvent.nnue_init,
         TransformEvent.invalid_message
           ("Invalid subcommand " ++ "bogus" ++ ". Exiting...")]
    ∧ (∀ args, TransformEvent.run_nudged_static args ∉ transform ["bogus"])
    ∧ (∀ args, TransformEvent.run_rescore_fen args ∉ transform ["bogus"])
    ∧ (transform ["bogus"]).head? = some TransformEvent.nnue_init :=
  C9_unknown_subcommand "bogus" [] (by decide) (by decide)

end Transform

namespace Transform

/-- Peeling two consumed tokens off a non-membership fact. -/
theorem not_mem_of_not_mem_cons₂ {a b c : String} {l : List String}
    (h : a ∉ b :: c :: l) : a ∉ l :=
  List.not_mem_of_not_mem_cons (List.not_mem_of_not_mem_cons h)

/-- Any field of the nudge parameter struct whose key never occurs in the
argument stream is preserved by the token loop; the mode stays absolute
when neither mode-changing key occurs. -/
theorem nudged_static_parse_preserves (readI : String → Option ℤ)
    (readF : String → Option ℚ) :
    ∀ (args : List String) (p : NudgedStaticParams),
      ("absolute" ∉ args →
        (nudged_static_parse readI readF args p).absolute_nudge
          = p.absolute_nudge)
      ∧ ("relative" ∉ args →
        (nudged_static_parse readI readF args p).relative_nudge
          = p.relative_nudge)
      ∧ ("interpolate" ∉ args →
        (nudged_static_parse readI readF args p).interpolate_nudge
          = p.interpolate_nudge)
      ∧ ("input_file" ∉ args →
        (nudged_static_parse readI readF args p).input_filename
          = p.input_filename)
      ∧ ("output_file" ∉ args →
        (nudged_static_parse readI readF args p).output_filename
          = p.output_filename)
      ∧ ("relative" ∉ args → "interpolate" ∉ args →
          p.mode = NudgedStaticMode.Absolute →
        (nudged_static_parse readI readF args p).mode
          = NudgedStaticMode.Absolute) := by
  intro args p
  induction args, p using nudged_static_parse.induct readI readF with
  | case1 p =>
    exact ⟨fun _ => rfl, fun _ => rfl, fun _ => rfl, fun _ => rfl,
      fun _ => rfl, fun _ _ h => h⟩
  | case2 p =>
    have he : nudged_static_parse readI readF ["absolute"] p
        = { p with mode := NudgedStaticMode.Absolute } := by
      rw [nudged_static_parse.eq_def]
      simp
    refine ⟨?_, ?_, ?_, ?_, ?_, ?_⟩
    · intro h; exact absurd (List.mem_cons_self _ _) h
    · intro _; rw [he]
    · intro _; rw [he]
    · intro _; rw [he]
    · intro _; rw [he]
    · intro _ _ _; rw [he]
  | case3 p fen rest n hread ih =>
    have he : nudged_static_parse readI readF ("absolute" :: fen :: rest) p
        = nudged_static_parse readI readF rest
            { p with mode := NudgedStaticMode.Absolute,
                     absolute_nudge := n } := by
      rw [nudged_static_parse.eq_def]
      simp [hread]
    refine ⟨?_, ?_, ?_, ?_, ?_, ?_⟩
    · intro h; exact absurd (List.mem_cons_self _ _) h
    · intro h; rw [he]; exact ih.2.1 (not_mem_of_not_mem_cons₂ h)
    · intro h; rw [he]; exact ih.2.2.1 (not_mem_of_not_mem_cons₂ h)
    · intro h; rw [he]; exact ih.2.2.2.1 (not_mem_of_not_mem_cons₂ h)
    · intro h; rw [he]; exact ih.2.2.2.2.1 (not_mem_of_not_mem_cons₂ h)
    · intro h1 h2 _
      rw [he]
      exact ih.2.2.2.2.2 (not_mem_of_not_mem_cons₂ h1)
        (not_mem_of_not_mem_cons₂ h2) rfl
  | case4 p fen rest hread =>
    have he : nudged_static_parse readI readF ("absolute" :: fen :: rest) p
        = { p with mode := NudgedStaticMode.Absolute,
                   absolute_nudge := 0 } := by
      rw [nudged_static_parse.eq_def]
      simp [hread]
    refine ⟨?_, ?_, ?_, ?_, ?_, ?_⟩
    · intro h; exact absurd (List.mem_cons_self _ _) h
    · intro _; rw [he]
    · intro _; rw [he]
    · intro _; rw [he]
    · intro _; rw [he]
    · intro _ _ _; rw [he]
  | case5 p hne =>
    have he : nudged_static_parse readI readF ["relative"] p
        = { p with mode := NudgedStaticMode.Relative } := by
      rw [nudged_static_parse.eq_def]
      simp
    refine ⟨?_, ?_, ?_, ?_, ?_, ?_⟩
    · intro _; rw [he]
    · intro h; exact absurd (List.mem_cons_self _ _) h
    · intro _; rw [he]
    · intro _; rw [he]
    · intro _; rw [he]
    · intro h1 _ _; exact absurd (List.mem_cons_self _ _) h1
  | case6 p fen rest x hread hne ih =>
    have he : nudged_static_parse readI readF ("relative" :: fen :: rest) p
        = nudged_static_parse readI readF rest
            { p with mode := NudgedStaticMode.Relative,
                     relative_nudge := x } := by
      rw [nudged_static_parse.eq_def]
      simp [hread]
    refine ⟨?_, ?_, ?_, ?_, ?_, ?_⟩
    · intro h; rw [he]; exact ih.1 (not_mem_of_not_mem_cons₂ h)
    · intro h; exact absurd (List.mem_cons_self _ _) h
    · intro h; rw [he]; exact ih.2.2.1 (not_mem_of_not_mem_cons₂ h)
    · intro h; rw [he]; exact ih.2.2.2.1 (not_mem_of_not_mem_cons₂ h)
    · intro h; rw [he]; exact ih.2.2.2.2.1 (not_mem_of_not_mem_cons₂ h)
    · intro h1 _ _; exact absurd (List.mem_cons_self _ _) h1
  | case7 p fen rest hread hne =>
    have he : nudged_static_parse readI readF ("relative" :: fen :: rest) p
        = { p with mode := NudgedStaticMode.Relative,
                   relative_nudge := 0 } := by
      rw [nudged_static_parse.eq_def]
      simp [hread]
    refine ⟨?_, ?_, ?_, ?_, ?_, ?_⟩
    · intro _; rw [he]
    · intro h; exact absurd (List.mem_cons_self _ _) h
    · intro _; rw [he]
    · intro _; rw [he]
    · intro _; rw [he]
    · intro h1 _ _; exact absurd (List.mem_cons_self _ _) h1
  | case8 p hne1 hne2 =>
    have he : nudged_static_parse readI readF ["interpolate"] p
        = { p with mode := NudgedStaticMode.Interpolate } := by
      rw [nudged_static_parse.eq_def]
      simp
    refine ⟨?_, ?_, ?_, ?_, ?_, ?_⟩
    · intro _; rw [he]
    · intro _; rw [he]
    · intro h; exact absurd (List.mem_cons_self _ _) h
    · intro _; rw [he]
    · intro _; rw [he]
    · intro _ h2 _; exact absurd (List.mem_cons_self _ _) h2
  | case9 p fen rest x hread hne1 hne2 ih =>
    have he : nudged_static_parse readI readF
          ("interpolate" :: fen :: rest) p
        = nudged_static_parse readI readF rest
            { p with mode := NudgedStaticMode.Interpolate,
                     interpolate_nudge := x } := by
      rw [nudged_static_parse.eq_def]
      simp [hread]
    refine ⟨?_, ?_, ?_, ?_, ?_, ?_⟩
    · intro h; rw [he]; exact ih.1 (not_mem_of_not_mem_cons₂ h)
    · intro h; rw [he]; exact ih.2.1 (not_mem_of_not_mem_cons₂ h)
    · intro h; exact absurd (List.mem_cons_self _ _) h
    · intro h; rw [he]; exact ih.2.2.2.1 (not_mem_of_not_mem_cons₂ h)
    · intro h; rw [he]; exact ih.2.2.2.2.1 (not_mem_of_not_mem_cons₂ h)
    · intro _ h2 _; exact absurd (List.mem_cons_self _ _) h2
  | case10 p fen rest hread hne1 hne2 =>
    have he : nudged_static_parse readI readF
          ("interpolate" :: fen :: rest) p
        = { p with mode := NudgedStaticMode.Interpolate,
                   interpolate_nudge := 0 } := by
      rw [nudged_static_parse.eq_def]
      simp [hread]
    refine ⟨?_, ?_, ?_, ?_, ?_, ?_⟩
    · intro _; rw [he]
    · intro _; rw [he]
    · intro h; exact absurd (List.mem_cons_self _ _) h
    · intro _; rw [he]
    · intro _; rw [he]
    · intro _ h2 _; exact absurd (List.mem_cons_self _ _) h2
  | case11 p hne1 hne2 hne3 =>
    have he : nudged_static_parse readI readF ["input_file"] p = p := by
      rw [nudged_static_parse.eq_def]
      simp
    refine ⟨?_, ?_, ?_, ?_, ?_, ?_⟩
    · intro _; rw [he]
    · intro _; rw [he]
    · intro _; rw [he]
    · intro h; exact absurd (List.mem_cons_self _ _) h
    · intro _; rw [he]
    · intro _ _ h3; rw [he]; exact h3
  | case12 p fen rest hne1 hne2 hne3 ih =>
    have he : nudged_static_parse readI readF
          ("input_file" :: fen :: rest) p
        = nudged_static_parse readI readF rest
            { p with input_filename := fen } := by
      rw [nudged_static_parse.eq_def]
      simp
    refine ⟨?_, ?_, ?_, ?_, ?_, ?_⟩
    · intro h; rw [he]; exact ih.1 (not_mem_of_not_mem_cons₂ h)
    · intro h; rw [he]; exact ih.2.1 (not_mem_of_not_mem_cons₂ h)
    · intro h; rw [he]; exact ih.2.2.1 (not_mem_of_not_mem_cons₂ h)
    · intro h; exact absurd (List.mem_cons_self _ _) h
    · intro h; rw [he]; exact ih.2.2.2.2.1 (not_mem_of_not_mem_cons₂ h)
    · intro h1 h2 h3
      rw [he]
      exact ih.2.2.2.2.2 (not_mem_of_not_mem_cons₂ h1)
        (not_mem_of_not_mem_cons₂ h2) h3
  | case13 p hne1 hne2 hne3 hne4 =>
    have he : nudged_static_parse readI readF ["output_file"] p = p := by
      rw [nudged_static_parse.eq_def]
      simp
    refine ⟨?_, ?_, ?_, ?_, ?_, ?_⟩
    · intro _; rw [he]
    · intro _; rw [he]
    · intro _; rw [he]
    · intro _; rw [he]
    · intro h; exact absurd (List.mem_cons_self _ _) h
    · intro _ _ h3; rw [he]; exact h3
  | case14 p fen rest hne1 hne2 hne3 hne4 ih =>
    have he : nudged_static_parse readI readF
          ("output_file" :: fen :: rest) p
        = nudged_static_parse readI readF rest
            { p with output_filename := fen } := by
      rw [nudged_static_parse.eq_def]
      simp
    refine ⟨?_, ?_, ?_, ?_, ?_, ?_⟩
    · intro h; rw [he]; exact ih.1 (not_mem_of_not_mem_cons₂ h)
    · intro h; rw [he]; exact ih.2.1 (not_mem_of_not_mem_cons₂ h)
    · intro h; rw [he]; exact ih.2.2.1 (not_mem_of_not_mem_cons₂ h)
    · intro h; rw [he]; exact ih.2.2.2.1 (not_mem_of_not_mem_cons₂ h)
    · intro h; exact absurd (List.mem_cons_self _ _) h
    · intro h1 h2 h3
      rw [he]
      exact ih.2.2.2.2.2 (not_mem_of_not_mem_cons₂ h1)
        (not_mem_of_not_mem_cons₂ h2) h3
  | case15 tok rest p h1 h2 h3 h4 h5 ih =>
    have he : nudged_static_parse readI readF (tok :: rest) p
        = nudged_static_parse readI readF rest p := by
      rw [nudged_static_parse.eq_def]
      simp only [if_neg h1, if_neg h2, if_neg h3, if_neg h4, if_neg h5]
    refine ⟨?_, ?_, ?_, ?_, ?_, ?_⟩
    · intro h; rw [he]; exact ih.1 (List.not_mem_of_not_mem_cons h)
    · intro h; rw [he]; exact ih.2.1 (List.not_mem_of_not_mem_cons h)
    · intro h; rw [he]; exact ih.2.2.1 (List.not_mem_of_not_mem_cons h)
    · intro h; rw [he]; exact ih.2.2.2.1 (List.not_mem_of_not_mem_cons h)
    · intro h; rw [he]; exact ih.2.2.2.2.1 (List.not_mem_of_not_mem_cons h)
    · intro ha hb h3
      rw [he]
      exact ih.2.2.2.2.2 (List.not_mem_of_not_mem_cons ha)
        (List.not_mem_of_not_mem_cons hb) h3

end Transform

namespace Transform

/-- Any field of the rescore parameter struct whose key never occurs in
the argument stream is preserved by the token loop. -/
theorem rescore_fen_parse_preserves (readI : String → Option ℤ) :
    ∀ (args : List String) (p : RescoreFenParams),
      ("depth" ∉ args →
        (rescore_fen_parse readI args p).depth = p.depth)
      ∧ ("input_file" ∉ args →
        (rescore_fen_parse readI args p).input_filename = p.input_filename)
      ∧ ("output_file" ∉ args →
        (rescore_fen_parse readI args p).output_filename
          = p.output_filename) := by
  intro args p
  induction args, p using rescore_fen_parse.induct readI with
  | case1 p =>
    exact ⟨fun _ => rfl, fun _ => rfl, fun _ => rfl⟩
  | case2 p =>
    have he : rescore_fen_parse readI ["depth"] p = p := by
      rw [rescore_fen_parse.eq_def]
      simp
    refine ⟨?_, ?_, ?_⟩
    · intro h; exact absurd (List.mem_cons_self _ _) h
    · intro _; rw [he]
    · intro _; rw [he]
  | case3 p fen rest n hread ih =>
    have he : rescore_fen_parse readI ("depth" :: fen :: rest) p
        = rescore_fen_parse readI rest { p with depth := n } := by
      rw [rescore_fen_parse.eq_def]
      simp [hread]
    refine ⟨?_, ?_, ?_⟩
    · intro h; exact absurd (List.mem_cons_self _ _) h
    · intro h; rw [he]; exact ih.2.1 (not_mem_of_not_mem_cons₂ h)
    · intro h; rw [he]; exact ih.2.2 (not_mem_of_not_mem_cons₂ h)
  | case4 p fen rest hread =>
    have he : rescore_fen_parse readI ("depth" :: fen :: rest) p
        = { p with depth := 0 } := by
      rw [rescore_fen_parse.eq_def]
      simp [hread]
    refine ⟨?_, ?_, ?_⟩
    · intro h; exact absurd (List.mem_cons_self _ _) h
    · intro _; rw [he]
    · intro _; rw [he]
  | case5 p hne =>
    have he : rescore_fen_parse readI ["input_file"] p = p := by
      rw [rescore_fen_parse.eq_def]
      simp
    refine ⟨?_, ?_, ?_⟩
    · intro _; rw [he]
    · intro h; exact absurd (List.mem_cons_self _ _) h
    · intro _; rw [he]
  | case6 p fen rest hne ih =>
    have he : rescore_fen_parse readI ("input_file" :: fen :: rest) p
        = rescore_fen_parse readI rest { p with input_filename := fen } := by
      rw [rescore_fen_parse.eq_def]
      simp
    refine ⟨?_, ?_, ?_⟩
    · intro h; rw [he]; exact ih.1 (not_mem_of_not_mem_cons₂ h)
    · intro h; exact absurd (List.mem_cons_self _ _) h
    · intro h; rw [he]; exact ih.2.2 (not_mem_of_not_mem_cons₂ h)
  | case7 p hne1 hne2 =>
    have he : rescore_fen_parse readI ["output_file"] p = p := by
      rw [rescore_fen_parse.eq_def]
      simp
    refine ⟨?_, ?_, ?_⟩
    · intro _; rw [he]
    · intro _; rw [he]
    · intro h; exact absurd (List.mem_cons_self _ _) h
  | case8 p fen rest hne1 hne2 ih =>
    have he : rescore_fen_parse readI ("output_file" :: fen :: rest) p
        = rescore_fen_parse readI rest
            { p with output_filename := fen } := by
      rw [rescore_fen_parse.eq_def]
      simp
    refine ⟨?_, ?_, ?_⟩
    · intro h; rw [he]; exact ih.1 (not_mem_of_not_mem_cons₂ h)
    · intro h; rw [he]; exact ih.2.1 (not_mem_of_not_mem_cons₂ h)
    · intro h; exact absurd (List.mem_cons_self _ _) h
  | case9 tok rest p h1 h2 h3 ih =>
    have he : rescore_fen_parse readI (tok :: rest) p
        = rescore_fen_parse readI rest p := by
      rw [rescore_fen_parse.eq_def]
      simp only [if_neg h1, if_neg h2, if_neg h3]
    refine ⟨?_, ?_, ?_⟩
    · intro h; rw [he]; exact ih.1 (List.not_mem_of_not_mem_cons h)
    · intro h; rw [he]; exact ih.2.1 (List.not_mem_of_not_mem_cons h)
    · intro h; rw [he]; exact ih.2.2 (List.not_mem_of_not_mem_cons h)

/-- C10: every parameter whose key is absent from the argument stream
keeps its member-initializer default — nudge mode absolute with cap 5,
relative fraction 1/10, interpolate weight 1/10, files "in.binpack" /
"out.binpack"; rescore depth 3, files "in.epd" / "out.binpack" — and an
empty argument stream yields exactly the default structs. -/
theorem C10_parameter_defaults (readI : String → Option ℤ)
    (readF : String → Option ℚ) (argsN argsR : List String) :
    nudged_static_parse readI readF [] {} = ({} : NudgedStaticParams)
    ∧ rescore_fen_parse readI [] {} = ({} : RescoreFenParams)
    ∧ ("absolute" ∉ argsN →
        (nudged_static_parse readI readF argsN {}).absolute_nudge = 5)
    ∧ ("relative" ∉ argsN →
        (nudged_static_parse readI readF argsN {}).relative_nudge = 1/10)
    ∧ ("interpolate" ∉ argsN →
        (nudged_static_parse readI readF argsN {}).interpolate_nudge = 1/10)
    ∧ ("input_file" ∉ argsN →
        (nudged_static_parse readI readF argsN {}).input_filename
          = "in.binpack")
    ∧ ("output_file" ∉ argsN →
        (nudged_static_parse readI readF argsN {}).output_filename
          = "out.binpack")
    ∧ ("relative" ∉ argsN → "interpolate" ∉ argsN →
        (nudged_static_parse readI readF argsN {}).mode
          = NudgedStaticMode.Absolute)
    ∧ ("depth" ∉ argsR → (rescore_fen_parse readI argsR {}).depth = 3)
    ∧ ("input_file" ∉ argsR →
        (rescore_fen_parse readI argsR {}).input_filename = "in.epd")
    ∧ ("output_file" ∉ argsR →
        (rescore_fen_parse readI argsR {}).output_filename
          = "out.binpack") := by
  have hn := nudged_static_parse_preserves readI readF argsN {}
  have hr := rescore_fen_parse_preserves readI argsR {}
  exact ⟨rfl, rfl,
    fun h => hn.1 h, fun h => hn.2.1 h, fun h => hn.2.2.1 h,
    fun h => hn.2.2.2.1 h, fun h => hn.2.2.2.2.1 h,
    fun h1 h2 => hn.2.2.2.2.2 h1 h2 rfl,
    fun h => hr.1 h, fun h => hr.2.1 h, fun h => hr.2.2 h⟩

end Transform
